import Mathlib

/-!
Verification of the ST04 nested-CASE flattening rule (crates/lib/src/rules/structure/ST04.rs)
against its natural-language specification.

The rule's own code (RuleST04::eval, indentation, rebuild_spacing,
nested_end_trailing_comment) is embedded directly from the source.  The
segment model and the Segment-View operations it relies on live outside
the provided sources, so they are modelled from the specification's data
model (spec sections 3 and 4.1); each such definition carries a note.
-/

set_option maxHeartbeats 1000000

/-- Modelled from the spec: a CST node is a leaf token (raw text plus a type
tag that determines its token class), a composite node with a type tag and
ordered children, or an Indent meta segment recording a nesting depth.  The
concrete segment structure lives outside the provided sources. -/
inductive ErasedSegment where
  | leaf (typ : String) (raw : String)
  | node (typ : String) (children : List ErasedSegment)
  | indentMeta (depth : Nat)

mutual

def decEqSeg : (a b : ErasedSegment) → Decidable (a = b)
  | .leaf t r, .leaf t' r' =>
    if h1 : t = t' then
      if h2 : r = r' then isTrue (by rw [h1, h2])
      else isFalse (fun h => by cases h; exact h2 rfl)
    else isFalse (fun h => by cases h; exact h1 rfl)
  | .node t cs, .node t' cs' =>
    if h1 : t = t' then
      match decEqSegList cs cs' with
      | isTrue h2 => isTrue (by rw [h1, h2])
      | isFalse h2 => isFalse (fun h => by cases h; exact h2 rfl)
    else isFalse (fun h => by cases h; exact h1 rfl)
  | .indentMeta d, .indentMeta d' =>
    if h : d = d' then isTrue (by rw [h])
    else isFalse (fun hh => by cases hh; exact h rfl)
  | .leaf _ _, .node _ _ => isFalse (fun h => by cases h)
  | .leaf _ _, .indentMeta _ => isFalse (fun h => by cases h)
  | .node _ _, .leaf _ _ => isFalse (fun h => by cases h)
  | .node _ _, .indentMeta _ => isFalse (fun h => by cases h)
  | .indentMeta _, .leaf _ _ => isFalse (fun h => by cases h)
  | .indentMeta _, .node _ _ => isFalse (fun h => by cases h)

def decEqSegList : (a b : List ErasedSegment) → Decidable (a = b)
  | [], [] => isTrue rfl
  | [], _ :: _ => isFalse (fun h => by cases h)
  | _ :: _, [] => isFalse (fun h => by cases h)
  | x :: xs, y :: ys =>
    match decEqSeg x y, decEqSegList xs ys with
    | isTrue h1, isTrue h2 => isTrue (by rw [h1, h2])
    | isFalse h1, _ => isFalse (fun h => by cases h; exact h1 rfl)
    | _, isFalse h2 => isFalse (fun h => by cases h; exact h2 rfl)

end

instance : DecidableEq ErasedSegment := decEqSeg

/-- Type tag of a segment; Indent meta segments answer "indent". -/
def ErasedSegment.get_type : ErasedSegment → String
  | .leaf t _ => t
  | .node t _ => t
  | .indentMeta _ => ("indent")

def ErasedSegment.is_type (s : ErasedSegment) (t : String) : Bool :=
  s.get_type == t

mutual

/-- Raw source text of a segment: leaves carry it, composites concatenate
their children, meta segments contribute nothing (lossless-CST invariant). -/
def ErasedSegment.raw : ErasedSegment → String
  | .leaf _ r => r
  | .node _ cs => rawList cs
  | .indentMeta _ => ("")

def rawList : List ErasedSegment → String
  | [] => ("")
  | c :: rest => c.raw ++ rawList rest

end

/-- ASCII upper-casing (the raws the rule compares are SQL tokens). -/
def charUpper (c : Char) : Char :=
  if 97 ≤ c.toNat && c.toNat ≤ 122 then Char.ofNat (c.toNat - 32) else c

/-- ASCII upper-casing of a string. -/
def strUpper (s : String) : String :=
  ⟨s.data.map charUpper⟩

def ErasedSegment.raw_upper (s : ErasedSegment) : String :=
  strUpper s.raw

/-- Modelled from the spec: the Comment token class covers the comment type
tags used by the rule. -/
def ErasedSegment.is_comment (s : ErasedSegment) : Bool :=
  s.get_type == ("comment") || s.get_type == ("inline_comment") ||
    s.get_type == ("block_comment")

/-- Modelled from the spec: the Whitespace token class, distinct from
Newline and Comment. -/
def ErasedSegment.is_whitespace (s : ErasedSegment) : Bool :=
  s.get_type == ("whitespace")

mutual

/-- Modelled from the spec: a leaf is code when its class is neither
whitespace, newline nor comment; a composite is code when any child is. -/
def ErasedSegment.is_code : ErasedSegment → Bool
  | .leaf t _ =>
      !(t == ("whitespace") || t == ("newline") || t == ("comment") ||
        t == ("inline_comment") || t == ("block_comment"))
  | .node _ cs => anyCode cs
  | .indentMeta _ => false

def anyCode : List ErasedSegment → Bool
  | [] => false
  | c :: rest => c.is_code || anyCode rest

end

/-- Modelled from the spec: keyword test by upper-cased raw text. -/
def ErasedSegment.is_keyword (s : ErasedSegment) (kw : String) : Bool :=
  s.get_type == ("keyword") && strUpper s.raw == kw

def ErasedSegment.childSegs : ErasedSegment → List ErasedSegment
  | .node _ cs => cs
  | _ => []

/-- A Segment View: an ordered sequence of segment handles (spec section 3). -/
abbrev Segments := List ErasedSegment

/-- Identity scan: index of the first occurrence of a segment in a view.
Modelled from the spec: anchors are found by identity scan, and in a real
tree position markers make all segments of one view pairwise distinct. -/
def posOf : List ErasedSegment → ErasedSegment → Option Nat
  | [], _ => none
  | x :: rest, s => if x = s then some 0 else (posOf rest s).map (· + 1)

/-- Modelled from the spec (section 4.1): direct children of the view's
roots, order preserved, filtered by an optional predicate. -/
def Segments.children (xs : Segments) (p : Option (ErasedSegment → Bool)) : Segments :=
  (xs.map ErasedSegment.childSegs).flatten.filter fun s =>
    match p with
    | none => true
    | some q => q s

/-- Modelled from the spec (section 4.1): first matching element as a
singleton view; empty view if none. -/
def Segments.find_first (xs : Segments) (p : ErasedSegment → Bool) : Segments :=
  match xs.find? p with
  | some s => [s]
  | none => []

/-- Modelled from the spec (section 4.1): last matching element as a
singleton view; empty view if none. -/
def Segments.find_last (xs : Segments) (p : ErasedSegment → Bool) : Segments :=
  match xs.reverse.find? p with
  | some s => [s]
  | none => []

def Segments.reversed (xs : Segments) : Segments := xs.reverse

def Segments.anyOpt (xs : Segments) (p : Option (ErasedSegment → Bool)) : Bool :=
  xs.any fun s =>
    match p with
    | none => true
    | some q => q s

/-- Modelled from the spec (section 4.1): the contiguous sub-sequence
strictly between the two anchors (each found by identity scan; an omitted
anchor means from the beginning / to the end), cut short as soon as the
stop predicate fails, and filtered by the select predicate — the predicate
semantics match the rule's uses (e.g. "up to the next newline"). -/
def Segments.select (xs : Segments) (select_if : Option (ErasedSegment → Bool))
    (loop_while : Option (ErasedSegment → Bool))
    (start_seg : Option ErasedSegment) (stop_seg : Option ErasedSegment) : Segments :=
  let after_start :=
    match start_seg with
    | none => xs
    | some s =>
      match posOf xs s with
      | some i => xs.drop (i + 1)
      | none => xs
  let upto_stop :=
    match stop_seg with
    | none => after_start
    | some s =>
      match posOf after_start s with
      | some i => after_start.take i
      | none => after_start
  let looped :=
    match loop_while with
    | none => upto_stop
    | some p => upto_stop.takeWhile p
  match select_if with
  | none => looped
  | some p => looped.filter p

/-- Newly-created newline segment (NewlineSegment::create in the source). -/
def newlineSegment : ErasedSegment := .leaf ("newline") ("\n")

/-- Newly-created whitespace segment (WhitespaceSegment::create). -/
def whitespaceSegment (raw : String) : ErasedSegment := .leaf ("whitespace") raw

/-- The edit vocabulary of a Fix (spec section 3): delete, create-before
and create-after with an ordered payload of segments. -/
inductive LintFix where
  | delete (anchor : ErasedSegment)
  | create_before (anchor : ErasedSegment) (edit : List ErasedSegment)
  | create_after (anchor : ErasedSegment) (edit : List ErasedSegment)
deriving DecidableEq

/-- A violation report: anchor plus repair edits (spec section 3). -/
structure LintResult where
  anchor : Option ErasedSegment
  fixes : List LintFix
deriving DecidableEq

/-- Modelled from the spec (section 6): configuration is consumed through
nested key lookup; a missing key yields a valueless entry. -/
inductive CfgValue where
  | vint (i : Int)
  | vstr (s : String)
  | vnone
  | vmap (m : List (String × CfgValue))

/-- Nested key lookup on a configuration value (the source's indexing). -/
def CfgValue.idx : CfgValue → String → CfgValue
  | .vmap m, k =>
    match m.lookup k with
    | some v => v
    | none => .vnone
  | _, _ => .vnone

def CfgValue.as_int : CfgValue → Option Int
  | .vint i => some i
  | _ => none

def CfgValue.as_string : CfgValue → Option String
  | .vstr s => some s
  | _ => none

/-- Rust's `as usize` on the configured integer (wraps modulo 2^64). -/
def intAsUsize (i : Int) : Nat := (i % ((2 : Int) ^ 64)).toNat

/-- Resolved configuration snapshot handed to the rule. -/
structure FluffConfig where
  raw : CfgValue

/-- The context a crawler match hands to the rule: the matched
case_expression segment and the optional configuration. -/
structure RuleContext where
  segment : ErasedSegment
  config : Option FluffConfig

/-- Modelled from the spec: the configured single-indent unit is one tab
character, or tab_space_size spaces (utils::reflow::reindent is outside the
provided sources). -/
def construct_single_indent (indent_unit : String) (tab_space_size : Nat) : String :=
  if indent_unit == ("tab") then ("\t")
  else String.join (List.replicate tab_space_size (" "))

/-- Rust's str::repeat. -/
def repeatStr (s : String) (n : Nat) : String :=
  String.join (List.replicate n s)

/-- The indent level the source recovers from a found Indent meta segment:
its recorded depth plus one, or one when the downcast fails or nothing was
found (the mutable indent_level of fn indentation). -/
def indentLevelOf (seg_indent : Segments) : Nat :=
  match seg_indent.getLast? with
  | some (.indentMeta v) => v + 1
  | _ => 1

/-- Indent-string inference for an anchor segment (fn indentation in ST04.rs). -/
def indentation (parent_segments : Segments) (segment : ErasedSegment)
    (tab_space_size : Nat) (indent_unit : String) : String :=
  let leading_whitespace :=
    Segments.find_first
      (Segments.reversed (Segments.select parent_segments none none none (some segment)))
      (fun s => s.is_type ("whitespace"))
  let seg_indent :=
    Segments.find_last (Segments.select parent_segments none none none (some segment))
      (fun s => s.is_type ("indent"))
  let indent_level : Nat := indentLevelOf seg_indent
  match leading_whitespace.head? with
  | some whitespace_seg =>
    if !leading_whitespace.isEmpty && whitespace_seg.raw.length > 1 then
      rawList leading_whitespace
    else
      repeatStr (construct_single_indent indent_unit tab_space_size) indent_level
  | none => repeatStr (construct_single_indent indent_unit tab_space_size) indent_level

def isClauseType (s : ErasedSegment) : Bool :=
  s.get_type == ("when_clause") || s.get_type == ("else_clause")

/-- The loop of fn rebuild_spacing in ST04.rs, with the two state variables
(prior_newline, prior_whitespace) made explicit. -/
def rebuildLoop (indent_str : String) :
    List ErasedSegment → Bool → String → List ErasedSegment
  | [], _, _ => []
  | seg :: rest, prior_newline, prior_whitespace =>
    if isClauseType seg || (prior_newline && seg.is_comment) then
      newlineSegment :: whitespaceSegment indent_str :: seg ::
        rebuildLoop indent_str rest false ("")
    else if seg.is_type ("newline") then
      rebuildLoop indent_str rest true ("")
    else if !prior_newline && seg.is_comment then
      whitespaceSegment prior_whitespace :: seg ::
        rebuildLoop indent_str rest false ("")
    else if seg.is_whitespace then
      rebuildLoop indent_str rest prior_newline seg.raw
    else
      rebuildLoop indent_str rest prior_newline prior_whitespace

/-- State evolution of the rebuild_spacing loop (used to reason about the
loop compositionally; mirrors rebuildLoop exactly). -/
def rebuildState : List ErasedSegment → Bool → String → Bool × String
  | [], pn, pw => (pn, pw)
  | seg :: rest, prior_newline, prior_whitespace =>
    if isClauseType seg || (prior_newline && seg.is_comment) then
      rebuildState rest false ("")
    else if seg.is_type ("newline") then
      rebuildState rest true ("")
    else if !prior_newline && seg.is_comment then
      rebuildState rest false ("")
    else if seg.is_whitespace then
      rebuildState rest prior_newline seg.raw
    else
      rebuildState rest prior_newline prior_whitespace

/-- Trivia reconstruction (fn rebuild_spacing in ST04.rs): re-linearize a
list of clause/comment/whitespace/newline segments with fresh indentation. -/
def rebuild_spacing (indent_str : String) (nested_clauses : Segments) :
    List ErasedSegment :=
  let prior_newline :=
    Segments.anyOpt
      (Segments.find_last nested_clauses (fun s => !s.is_whitespace))
      (some fun s => s.is_comment)
  rebuildLoop indent_str nested_clauses prior_newline ("")

/-- Fixes for comments on the final nested END line
(fn nested_end_trailing_comment in ST04.rs). -/
def nested_end_trailing_comment (case1_children : Segments)
    (case1_else_clause_seg : ErasedSegment) (end_indent_str : String) : List LintFix :=
  let trailing_end :=
    Segments.select case1_children none
      (some fun seg => !seg.is_type ("newline"))
      (some case1_else_clause_seg) none
  let fixes :=
    (Segments.select trailing_end (some fun seg => seg.is_whitespace)
        (some fun seg => !seg.is_comment) none none).map LintFix.delete
  match (Segments.find_first trailing_end (fun seg => seg.is_comment)).head? with
  | some first_comment =>
    fixes ++ [LintFix.create_before first_comment
      [newlineSegment, whitespaceSegment end_indent_str]]
  | none => fixes

/-- The rule object; load_from_config in the source ignores the
configuration and always succeeds. -/
inductive RuleST04 where
  | mk

/-- RuleST04::load_from_config: Ok(RuleST04.erased()) regardless of the
configuration handed in. -/
def RuleST04.load_from_config (_config : CfgValue) : Except String RuleST04 :=
  Except.ok RuleST04.mk

/-- Direct children of the matched case_expression (let case1_children). -/
def case1_children (ctx : RuleContext) : Segments :=
  Segments.children [ctx.segment] none

/-- let case1_keywords = ... find_first(is_keyword("CASE")). -/
def case1_keywords (ctx : RuleContext) : Segments :=
  Segments.find_first (case1_children ctx) (fun s => s.is_keyword ("CASE"))

/-- let case1_when_list = ... find_first(type in when_clause | else_clause). -/
def case1_when_list (ctx : RuleContext) : Segments :=
  Segments.find_first (case1_children ctx) isClauseType

/-- let when_clause_list = ... find_last(is_type("when_clause")). -/
def when_clause_list (ctx : RuleContext) : Segments :=
  Segments.find_last (case1_children ctx) (fun s => s.is_type ("when_clause"))

/-- let case1_else_clause = ... find_last(is_type("else_clause")). -/
def case1_else_clause (ctx : RuleContext) : Segments :=
  Segments.find_last (case1_children ctx) (fun s => s.is_type ("else_clause"))

/-- let case1_else_expressions = children(is_type("expression")). -/
def case1_else_expressions (ctx : RuleContext) : Segments :=
  Segments.children (case1_else_clause ctx) (some fun s => s.is_type ("expression"))

/-- let expression_children = case1_else_expressions.children(None). -/
def expression_children (ctx : RuleContext) : Segments :=
  Segments.children (case1_else_expressions ctx) none

/-- let case2 = expression_children.select(None, None, None, None) — note
the source applies no type filter here. -/
def case2 (ctx : RuleContext) : Segments :=
  Segments.select (expression_children ctx) none none none none

def case2_children (ctx : RuleContext) : Segments :=
  Segments.children (case2 ctx) none

def case2_case_list (ctx : RuleContext) : Segments :=
  Segments.find_first (case2_children ctx) (fun s => s.is_keyword ("CASE"))

def case2_when_list (ctx : RuleContext) : Segments :=
  Segments.find_first (case2_children ctx) isClauseType

/-- The outer prefix tokens x1: upper-cased raws of the code children
strictly between the outer CASE keyword and the first when/else clause
(none when one of the two unwrapped anchors is missing). -/
def x1 (ctx : RuleContext) : Option (List String) :=
  match (case1_keywords ctx).head?, (case1_when_list ctx).head? with
  | some a, some b =>
    some ((Segments.select (Segments.children [ctx.segment] (some fun s => s.is_code))
      none none (some a) (some b)).map ErasedSegment.raw_upper)
  | _, _ => none

/-- The inner prefix tokens x2 (anchors are optional in the source). -/
def x2 (ctx : RuleContext) : List String :=
  (Segments.select (Segments.children (case2 ctx) (some fun s => s.is_code))
    none none ((case2_case_list ctx).head?) ((case2_when_list ctx).head?)).map
    ErasedSegment.raw_upper

/-- let case1_to_delete = select between the last outer when_clause and the
else_clause. -/
def case1_to_delete (ctx : RuleContext) (lw else_seg : ErasedSegment) : Segments :=
  Segments.select (case1_children ctx) none none (some lw) (some else_seg)

/-- let after_last_comment_index = position of the last comment of the
deleted span, plus one (zero when there is none). -/
def after_last_comment_index (ctx : RuleContext) (lw else_seg : ErasedSegment) : Nat :=
  match (Segments.find_last (case1_to_delete ctx lw else_seg)
      (fun s => s.is_comment)).head? with
  | some c =>
    match posOf (case1_to_delete ctx lw else_seg) c with
    | some n => n + 1
    | none => 0
  | none => 0

/-- let case1_comments_to_restore = the deleted span up to (the identity
of) its element at after_last_comment_index. -/
def case1_comments_to_restore (ctx : RuleContext) (lw else_seg : ErasedSegment) : Segments :=
  Segments.select (case1_to_delete ctx lw else_seg) none none none
    ((case1_to_delete ctx lw else_seg)[after_last_comment_index ctx lw else_seg]?)

def isTriviaType (s : ErasedSegment) : Bool :=
  s.get_type == ("newline") || s.get_type == ("inline_comment") ||
    s.get_type == ("block_comment") || s.get_type == ("comment") ||
    s.get_type == ("whitespace")

/-- let after_else_comment = trivia children of the else_clause that
precede its first expression. -/
def after_else_comment (ctx : RuleContext) : Segments :=
  Segments.select (Segments.children (case1_else_clause ctx) none)
    (some isTriviaType) none none ((case1_else_expressions ctx).head?)

/-- let nested_clauses = clause and trivia children of the inner case. -/
def nested_clauses (ctx : RuleContext) : Segments :=
  Segments.children (case2 ctx)
    (some fun s => isClauseType s || isTriviaType s)

/-- The ordered fix list RuleST04::eval assembles once all preconditions
hold: deletions of the span, the create_after payload, deletion of the
else_clause, then the nested-END trailing-comment fixes. -/
def evalFixes (ctx : RuleContext) (lw else_seg c1case : ErasedSegment)
    (tss : Nat) (indent_unit : String) : List LintFix :=
  let when_indent_str := indentation (case1_children ctx) lw tss indent_unit
  let end_indent_str := indentation (case1_children ctx) c1case tss indent_unit
  ((case1_to_delete ctx lw else_seg).map LintFix.delete)
    ++ [LintFix.create_after lw
          (case1_comments_to_restore ctx lw else_seg
            ++ rebuild_spacing when_indent_str (after_else_comment ctx)
            ++ rebuild_spacing when_indent_str (nested_clauses ctx)),
        LintFix.delete else_seg]
    ++ nested_end_trailing_comment (case1_children ctx) else_seg end_indent_str

/-- RuleST04::eval.  A none result models a panic (an .unwrap() on a
missing value); some [] is the "no violation" empty result; otherwise the
single LintResult the rule produces.  The match order follows the source's
evaluation order exactly. -/
def eval (ctx : RuleContext) : Option (List LintResult) :=
  match (case1_keywords ctx).head? with
  | none => none
  | some case1_first_case =>
  match (case1_when_list ctx).head? with
  | none => none
  | some _case1_first_when =>
  match (when_clause_list ctx).head? with
  | none => some []
  | some case1_last_when =>
  if (case1_else_expressions ctx).length > 1 ∨ (expression_children ctx).length > 1 ∨
      (case2 ctx).isEmpty then some []
  else if x1 ctx ≠ some (x2 ctx) then some []
  else
  match (case1_else_clause ctx).head? with
  | none => none
  | some case1_else_clause_seg =>
  match ctx.config with
  | none => none
  | some config =>
  match ((config.raw.idx ("indentation")).idx ("tab_space_size")).as_int with
  | none => none
  | some tss_int =>
  match ((config.raw.idx ("indentation")).idx ("indent_unit")).as_string with
  | none => none
  | some indent_unit =>
  some [⟨(case2 ctx).head?,
         evalFixes ctx case1_last_when case1_else_clause_seg case1_first_case
           (intAsUsize tss_int) indent_unit⟩]

/-- A well-formed configuration: indentation.tab_space_size = 4,
indentation.indent_unit = "space". -/
def cfgGood : FluffConfig :=
  ⟨.vmap [(("indentation"),
    .vmap [(("tab_space_size"), .vint 4), (("indent_unit"), .vstr ("space"))])]⟩

/-- A malformed configuration: indentation.tab_space_size is missing. -/
def cfgBad : CfgValue :=
  .vmap [(("indentation"), .vmap [(("indent_unit"), .vstr ("space"))])]

def kwCASE : ErasedSegment := .leaf ("keyword") ("CASE")
def kwWHEN : ErasedSegment := .leaf ("keyword") ("WHEN")
def kwELSE : ErasedSegment := .leaf ("keyword") ("ELSE")
def kwEND : ErasedSegment := .leaf ("keyword") ("END")
def wsSp : ErasedSegment := .leaf ("whitespace") (" ")
def cmtNote : ErasedSegment := .leaf ("inline_comment") ("-- note")
def wcOuter : ErasedSegment := .node ("when_clause") [kwWHEN]
def wcInner : ErasedSegment := .node ("when_clause") [kwWHEN]

/-- Inner case of the positive fixture: CASE WHEN ... END. -/
def innerCase : ErasedSegment := .node ("case_expression") [kwCASE, wcInner, kwEND]

/-- Outer else clause of the positive fixture: ELSE <inner case>. -/
def elsPos : ErasedSegment :=
  .node ("else_clause") [kwELSE, .node ("expression") [innerCase]]

/-- Positive fixture: a searched outer CASE whose ELSE body is a nested
searched CASE, with an inline comment trailing the last when_clause. -/
def posTree : ErasedSegment :=
  .node ("case_expression") [kwCASE, wsSp, wcOuter, cmtNote, elsPos, kwEND]

def posCtx : RuleContext := ⟨posTree, some cfgGood⟩

def refX : ErasedSegment := .leaf ("column_reference") ("x")
def refY : ErasedSegment := .leaf ("column_reference") ("y")

/-- Inner case with subject y. -/
def innerCaseY : ErasedSegment :=
  .node ("case_expression") [kwCASE, refY, wcInner, kwEND]

/-- Negative fixture for differing subjects: CASE x ... ELSE CASE y ... END END. -/
def negSubjTree : ErasedSegment :=
  .node ("case_expression")
    [kwCASE, refX, wcOuter,
     .node ("else_clause") [kwELSE, .node ("expression") [innerCaseY]],
     kwEND]

def negSubjCtx : RuleContext := ⟨negSubjTree, some cfgGood⟩

/-- Fixture whose ELSE body is a single non-case expression child:
CASE WHEN ... THEN ... ELSE c END. -/
def elseLitTree : ErasedSegment :=
  .node ("case_expression")
    [kwCASE, wcOuter,
     .node ("else_clause") [kwELSE,
       .node ("expression") [.leaf ("literal") ("c")]],
     kwEND]

def elseLitCtx : RuleContext := ⟨elseLitTree, some cfgGood⟩

/-- Degenerate fixture: a case_expression node with no children at all. -/
def emptyCaseCtx : RuleContext := ⟨.node ("case_expression") [], some cfgGood⟩

/-- Fixture with a CASE keyword and an else_clause but no when_clause. -/
def noWhenTree : ErasedSegment :=
  .node ("case_expression")
    [kwCASE, .node ("else_clause") [kwELSE, .node ("expression") [innerCase]], kwEND]

def noWhenCtx : RuleContext := ⟨noWhenTree, some cfgGood⟩

/-- The positive fixture evaluated under the malformed configuration. -/
def posBadCfgCtx : RuleContext := ⟨posTree, some ⟨cfgBad⟩⟩

/-- The one LintResult eval produces on the positive fixture: delete the
trailing comment span, re-insert it followed by the re-indented inner
when_clause after the outer when_clause, and delete the else_clause. -/
def posResult : LintResult :=
  ⟨some innerCase,
   [LintFix.delete cmtNote,
    LintFix.create_after wcOuter
      [cmtNote, newlineSegment, whitespaceSegment ("    "), wcInner],
    LintFix.delete elsPos]⟩

/-- Fixture with a when_clause but no else_clause at all. -/
def noElseTree : ErasedSegment :=
  .node ("case_expression") [kwCASE, wcOuter, kwEND]

def noElseCtx : RuleContext := ⟨noElseTree, some cfgGood⟩

/-- Shape invariant of rebuild_spacing output: a concatenation of blocks,
each either newline-indent-element (element a clause or comment) or
inline-whitespace-comment. -/
inductive SpacedOut (ind : String) : List ErasedSegment → Prop where
  | nil : SpacedOut ind []
  | block (s : ErasedSegment) (rest : List ErasedSegment)
      (hs : isClauseType s = true ∨ s.is_comment = true) (h : SpacedOut ind rest) :
      SpacedOut ind (newlineSegment :: whitespaceSegment ind :: s :: rest)
  | inline (pw : String) (c : ErasedSegment) (rest : List ErasedSegment)
      (hc : c.is_comment = true) (h : SpacedOut ind rest) :
      SpacedOut ind (whitespaceSegment pw :: c :: rest)

/-- C1: eval produces a non-empty result only when the upper-cased code
tokens between the outer CASE keyword and the outer case's first
when/else clause coincide token-for-token with the inner case's
corresponding sequence; and on the differing-subjects tree
(CASE x ... ELSE CASE y ... END END) eval returns zero results. -/
theorem st04_c1 :
    (∀ ctx r rs, eval ctx = some (r :: rs) → x1 ctx = some (x2 ctx)) ∧
    eval negSubjCtx = some [] := by
  constructor
  · intro ctx r rs h
    unfold eval at h
    repeat' split at h
    all_goals simp_all
  · decide

theorem st04_c1_witness : x1 posCtx = some (x2 posCtx) :=
  st04_c1.1 posCtx posResult [] (by decide)

/-- C2 (failing input): for an outer searched CASE whose ELSE body is one
expression whose single child is a plain literal — not a case_expression —
eval still emits one LintResult (whose fixes delete the else_clause),
because the source never checks the child's type. -/
theorem st04_c2_bug : (eval elseLitCtx).map List.length = some 1 := by
  decide

/-- C3 (counterexample): on a case_expression node with no children at all
(no CASE keyword child), eval panics (models as none) instead of
returning the empty result the claim promises. -/
theorem st04_c3_cex : eval emptyCaseCtx = none := by
  decide

/-- C3 (amended): once the CASE keyword child and a first when/else child
exist, eval does return an empty result on the remaining missing-structure
cases: no when_clause at all, or an else body of the wrong shape (more
than one expression, more than one expression child, or none). -/
theorem st04_c3 :
    (∀ ctx k w, (case1_keywords ctx).head? = some k →
      (case1_when_list ctx).head? = some w →
      (when_clause_list ctx).head? = none → eval ctx = some []) ∧
    (∀ ctx k w lw, (case1_keywords ctx).head? = some k →
      (case1_when_list ctx).head? = some w →
      (when_clause_list ctx).head? = some lw →
      ((case1_else_expressions ctx).length > 1 ∨ (expression_children ctx).length > 1 ∨
        (case2 ctx).isEmpty) →
      eval ctx = some []) := by
  constructor
  · intro ctx k w h1 h2 h3
    unfold eval
    rw [h1, h2, h3]
  · intro ctx k w lw h1 h2 h3 hsh
    unfold eval
    rw [h1, h2, h3]
    exact if_pos hsh

theorem st04_c3_witness : eval noWhenCtx = some [] ∧ eval noElseCtx = some [] :=
  ⟨st04_c3.1 noWhenCtx kwCASE
      (.node ("else_clause") [kwELSE, .node ("expression") [innerCase]])
      (by decide) (by decide) (by decide),
   st04_c3.2 noElseCtx kwCASE wcOuter wcOuter
      (by decide) (by decide) (by decide) (Or.inr (Or.inr (by decide)))⟩

/-- C7 (counterexample): with indentation.tab_space_size missing from the
configuration, load_from_config still succeeds, and eval fails (panics,
modelled as none) on a tree the rule matches — the configuration error is
not surfaced at load time and does cause a failure during eval. -/
theorem st04_c7_cex :
    RuleST04.load_from_config cfgBad = Except.ok RuleST04.mk ∧
    eval posBadCfgCtx = none :=
  ⟨rfl, by decide⟩

/-- C7 (amended): load_from_config succeeds for every configuration (it
never inspects it), and a missing indentation.tab_space_size key instead
panics inside eval once the flattening preconditions hold. -/
theorem st04_c7 :
    (∀ cfg, RuleST04.load_from_config cfg = Except.ok RuleST04.mk) ∧
    eval posBadCfgCtx = none :=
  ⟨fun _ => rfl, by decide⟩

theorem rawList_single (s : ErasedSegment) : rawList [s] = s.raw := by
  simp [rawList, String.append_empty]

theorem indentLevelOf_find_last (xs : Segments) (p : ErasedSegment → Bool) :
    (∃ v, xs.reverse.find? p = some (.indentMeta v) ∧
       indentLevelOf (Segments.find_last xs p) = v + 1) ∨
    ((∀ v, xs.reverse.find? p ≠ some (.indentMeta v)) ∧
       indentLevelOf (Segments.find_last xs p) = 1) := by
  cases h : xs.reverse.find? p with
  | none =>
    right
    constructor
    · intro v hv
      cases hv
    · simp [Segments.find_last, indentLevelOf, h]
  | some s =>
    cases s with
    | indentMeta v =>
      left
      exact ⟨v, rfl, by simp [Segments.find_last, indentLevelOf, h]⟩
    | leaf t r =>
      right
      constructor
      · intro v hv
        cases hv
      · simp [Segments.find_last, indentLevelOf, h]
    | node t cs =>
      right
      constructor
      · intro v hv
        cases hv
      · simp [Segments.find_last, indentLevelOf, h]

/-- C5: the computed indent string is either the verbatim raw text of the
nearest preceding whitespace leaf when one exists with raw text longer
than one character, or the configured single-indent unit repeated
(recorded depth of the nearest preceding Indent meta segment plus one)
times, the level defaulting to one when no Indent meta segment precedes
the anchor. -/
theorem st04_c5 (ps : Segments) (seg : ErasedSegment) (tss : Nat) (unit : String) :
    (∃ ws, (Segments.select ps none none none (some seg)).reverse.find?
        (fun s => s.is_type ("whitespace")) = some ws ∧
      1 < ws.raw.length ∧ indentation ps seg tss unit = ws.raw) ∨
    ((∀ ws, (Segments.select ps none none none (some seg)).reverse.find?
        (fun s => s.is_type ("whitespace")) = some ws → ws.raw.length ≤ 1) ∧
     ∃ lvl, indentation ps seg tss unit =
        repeatStr (construct_single_indent unit tss) lvl ∧
       ((∃ v, (Segments.select ps none none none (some seg)).reverse.find?
            (fun s => s.is_type ("indent")) = some (.indentMeta v) ∧ lvl = v + 1) ∨
        ((∀ v, (Segments.select ps none none none (some seg)).reverse.find?
            (fun s => s.is_type ("indent")) ≠ some (.indentMeta v)) ∧ lvl = 1))) := by
  cases hws : (Segments.select ps none none none (some seg)).reverse.find?
      (fun s => s.is_type ("whitespace")) with
  | none =>
    right
    constructor
    · intro ws hws'
      cases hws'
    · refine ⟨indentLevelOf (Segments.find_last (Segments.select ps none none none (some seg))
        (fun s => s.is_type ("indent"))), ?_, ?_⟩
      · simp [indentation, Segments.find_first, Segments.reversed, hws]
      · rcases indentLevelOf_find_last (Segments.select ps none none none (some seg))
          (fun s => s.is_type ("indent")) with ⟨v, hv, hl⟩ | ⟨hv, hl⟩
        · exact Or.inl ⟨v, hv, hl⟩
        · exact Or.inr ⟨hv, hl⟩
  | some ws =>
    by_cases hlen : 1 < ws.raw.length
    · left
      refine ⟨ws, rfl, hlen, ?_⟩
      simp [indentation, Segments.find_first, Segments.reversed, hws, hlen, rawList_single]
    · right
      constructor
      · intro ws' hws'
        cases hws'
        omega
      · refine ⟨indentLevelOf (Segments.find_last (Segments.select ps none none none (some seg))
          (fun s => s.is_type ("indent"))), ?_, ?_⟩
        · simp [indentation, Segments.find_first, Segments.reversed, hws, hlen]
        · rcases indentLevelOf_find_last (Segments.select ps none none none (some seg))
            (fun s => s.is_type ("indent")) with ⟨v, hv, hl⟩ | ⟨hv, hl⟩
          · exact Or.inl ⟨v, hv, hl⟩
          · exact Or.inr ⟨hv, hl⟩

theorem comment_type_facts (s : ErasedSegment) (h : s.is_comment = true) :
    isClauseType s = false ∧ s.is_type ("newline") = false := by
  unfold ErasedSegment.is_comment at h
  simp only [Bool.or_eq_true, beq_iff_eq] at h
  rcases h with (h | h) | h <;>
    simp [isClauseType, ErasedSegment.is_type, h]

theorem ws_type_facts (w : ErasedSegment) (hw : w.is_type ("whitespace") = true) :
    isClauseType w = false ∧ w.is_comment = false ∧
      w.is_type ("newline") = false ∧ w.is_whitespace = true := by
  simp only [ErasedSegment.is_type, beq_iff_eq] at hw
  simp [isClauseType, ErasedSegment.is_comment, ErasedSegment.is_type,
    ErasedSegment.is_whitespace, hw]

theorem rebuildLoop_append (ind : String) (xs ys : List ErasedSegment)
    (pn : Bool) (pw : String) :
    rebuildLoop ind (xs ++ ys) pn pw =
      rebuildLoop ind xs pn pw ++
        rebuildLoop ind ys (rebuildState xs pn pw).1 (rebuildState xs pn pw).2 := by
  induction xs generalizing pn pw with
  | nil => simp [rebuildLoop, rebuildState]
  | cons x xs ih =>
    simp only [List.cons_append, rebuildLoop, rebuildState]
    by_cases h1 : (isClauseType x || (pn && x.is_comment)) = true
    · simp [h1, ih]
    · simp only [Bool.not_eq_true] at h1
      by_cases h2 : x.is_type ("newline") = true
      · simp [h1, h2, ih]
      · simp only [Bool.not_eq_true] at h2
        by_cases h3 : (!pn && x.is_comment) = true
        · simp [h1, h2, h3, ih]
        · simp only [Bool.not_eq_true] at h3
          by_cases h4 : x.is_whitespace = true
          · simp [h1, h2, h3, h4, ih]
          · simp only [Bool.not_eq_true] at h4
            simp [h1, h2, h3, h4, ih]

theorem find_last_append_notp (xs : Segments) (w : ErasedSegment)
    (p : ErasedSegment → Bool) (hw : p w = false) :
    Segments.find_last (xs ++ [w]) p = Segments.find_last xs p := by
  simp [Segments.find_last, List.reverse_append, List.find?_cons, hw]

theorem rebuildLoop_ws_single (ind : String) (w : ErasedSegment) (pn : Bool)
    (pw : String) (hw : w.is_type ("whitespace") = true) :
    rebuildLoop ind [w] pn pw = [] := by
  have h := ws_type_facts w hw
  simp [rebuildLoop, h.1, h.2.1, h.2.2.1, h.2.2.2]

/-- C10: in the trivia-reconstruction loop, a comment arriving with no
recorded newline and an empty whitespace buffer is emitted behind a
zero-length whitespace segment; and a trailing whitespace element of the
input (nothing follows it) is silently dropped from the output. -/
theorem st04_c10 :
    (∀ ind c rest, c.is_comment = true →
      rebuildLoop ind (c :: rest) false ("") =
        whitespaceSegment ("") :: c :: rebuildLoop ind rest false ("")) ∧
    (∀ ind xs w, w.is_type ("whitespace") = true →
      rebuild_spacing ind (xs ++ [w]) = rebuild_spacing ind xs) := by
  constructor
  · intro ind c rest hc
    have h1 := comment_type_facts c hc
    simp [rebuildLoop, h1.1, h1.2, hc]
  · intro ind xs w hw
    have hfacts := ws_type_facts w hw
    unfold rebuild_spacing
    rw [find_last_append_notp xs w _ (by simp [hfacts.2.2.2]),
      rebuildLoop_append, rebuildLoop_ws_single _ _ _ _ hw, List.append_nil]

theorem st04_c10_witness :
    rebuildLoop ("") (cmtNote :: []) false ("") =
      whitespaceSegment ("") :: cmtNote :: rebuildLoop ("") [] false ("") ∧
    rebuild_spacing ("") ([] ++ [wsSp]) = rebuild_spacing ("") [] :=
  ⟨st04_c10.1 ("") cmtNote [] (by decide), st04_c10.2 ("") [] wsSp (by decide)⟩

theorem clause_not_newline (s : ErasedSegment) (h : isClauseType s = true) :
    s.is_type ("newline") = false := by
  unfold isClauseType at h
  simp only [Bool.or_eq_true, beq_iff_eq] at h
  rcases h with h | h <;> simp [ErasedSegment.is_type, h]

theorem spacedOut_rebuildLoop (ind : String) (xs : List ErasedSegment) :
    ∀ pn pw, SpacedOut ind (rebuildLoop ind xs pn pw) := by
  induction xs with
  | nil => intro pn pw; exact SpacedOut.nil
  | cons x xs ih =>
    intro pn pw
    by_cases h1 : (isClauseType x || (pn && x.is_comment)) = true
    · rw [show rebuildLoop ind (x :: xs) pn pw =
        newlineSegment :: whitespaceSegment ind :: x :: rebuildLoop ind xs false ("")
        from by simp [rebuildLoop, h1]]
      refine SpacedOut.block x _ ?_ (ih false (""))
      rcases (Bool.or_eq_true _ _) ▸ h1 with h | h
      · exact Or.inl h
      · exact Or.inr ((Bool.and_eq_true _ _) ▸ h).2
    · simp only [Bool.not_eq_true] at h1
      by_cases h2 : x.is_type ("newline") = true
      · rw [show rebuildLoop ind (x :: xs) pn pw = rebuildLoop ind xs true ("")
          from by simp [rebuildLoop, h1, h2]]
        exact ih true ("")
      · simp only [Bool.not_eq_true] at h2
        by_cases h3 : (!pn && x.is_comment) = true
        · rw [show rebuildLoop ind (x :: xs) pn pw =
            whitespaceSegment pw :: x :: rebuildLoop ind xs false ("")
            from by simp [rebuildLoop, h1, h2, h3]]
          exact SpacedOut.inline pw x _ ((Bool.and_eq_true _ _) ▸ h3).2 (ih false (""))
        · simp only [Bool.not_eq_true] at h3
          by_cases h4 : x.is_whitespace = true
          · rw [show rebuildLoop ind (x :: xs) pn pw = rebuildLoop ind xs pn x.raw
              from by simp [rebuildLoop, h1, h2, h3, h4]]
            exact ih pn x.raw
          · simp only [Bool.not_eq_true] at h4
            rw [show rebuildLoop ind (x :: xs) pn pw = rebuildLoop ind xs pn pw
              from by simp [rebuildLoop, h1, h2, h3, h4]]
            exact ih pn pw

theorem spacedOut_clause_pre {ind : String} {out : List ErasedSegment}
    (h : SpacedOut ind out) :
    ∀ pre s suf, out = pre ++ s :: suf → isClauseType s = true →
      ∃ pre₀, pre = pre₀ ++ [newlineSegment, whitespaceSegment ind] := by
  induction h with
  | nil =>
    intro pre s suf he _
    exact absurd he (by simp)
  | block t rest hs hrest ih =>
    intro pre s suf he hcl
    rcases pre with _ | ⟨a, _ | ⟨b, _ | ⟨c, pre'⟩⟩⟩
    · simp only [List.nil_append, List.cons.injEq] at he
      rw [← he.1] at hcl
      simp [isClauseType, newlineSegment, ErasedSegment.get_type] at hcl
    · simp only [List.cons_append, List.nil_append, List.cons.injEq] at he
      rw [← he.2.1] at hcl
      simp [isClauseType, whitespaceSegment, ErasedSegment.get_type] at hcl
    · simp only [List.cons_append, List.nil_append, List.cons.injEq] at he
      exact ⟨[], by simp [← he.1, ← he.2.1]⟩
    · simp only [List.cons_append, List.cons.injEq] at he
      obtain ⟨pre₀, hp⟩ := ih pre' s suf he.2.2.2 hcl
      exact ⟨newlineSegment :: whitespaceSegment ind :: c :: pre₀,
        by simp [← he.1, ← he.2.1, hp]⟩
  | inline pw c rest hc hrest ih =>
    intro pre s suf he hcl
    rcases pre with _ | ⟨a, _ | ⟨b, pre'⟩⟩
    · simp only [List.nil_append, List.cons.injEq] at he
      rw [← he.1] at hcl
      simp [isClauseType, whitespaceSegment, ErasedSegment.get_type] at hcl
    · simp only [List.cons_append, List.nil_append, List.cons.injEq] at he
      rw [← he.2.1] at hcl
      simp [(comment_type_facts c hc).1] at hcl
    · simp only [List.cons_append, List.cons.injEq] at he
      obtain ⟨pre₀, hp⟩ := ih pre' s suf he.2.2 hcl
      exact ⟨whitespaceSegment pw :: b :: pre₀, by simp [← he.1, hp]⟩

theorem spacedOut_newline_pre {ind : String} {out : List ErasedSegment}
    (h : SpacedOut ind out) :
    ∀ pre s suf, out = pre ++ s :: suf → s.is_type ("newline") = true →
      s = newlineSegment ∧ ∃ t suf₀, suf = whitespaceSegment ind :: t :: suf₀ ∧
        (isClauseType t = true ∨ t.is_comment = true) := by
  induction h with
  | nil =>
    intro pre s suf he _
    exact absurd he (by simp)
  | block t rest hs hrest ih =>
    intro pre s suf he hnl
    rcases pre with _ | ⟨a, _ | ⟨b, _ | ⟨c, pre'⟩⟩⟩
    · simp only [List.nil_append, List.cons.injEq] at he
      exact ⟨he.1.symm, t, rest, he.2.symm, hs⟩
    · simp only [List.cons_append, List.nil_append, List.cons.injEq] at he
      rw [← he.2.1] at hnl
      simp [ErasedSegment.is_type, whitespaceSegment, ErasedSegment.get_type] at hnl
    · simp only [List.cons_append, List.nil_append, List.cons.injEq] at he
      rw [← he.2.2.1] at hnl
      rcases hs with hcl | hcm
      · simp [clause_not_newline t hcl] at hnl
      · simp [(comment_type_facts t hcm).2] at hnl
    · simp only [List.cons_append, List.cons.injEq] at he
      exact ih pre' s suf he.2.2.2 hnl
  | inline pw c rest hc hrest ih =>
    intro pre s suf he hnl
    rcases pre with _ | ⟨a, _ | ⟨b, pre'⟩⟩
    · simp only [List.nil_append, List.cons.injEq] at he
      rw [← he.1] at hnl
      simp [ErasedSegment.is_type, whitespaceSegment, ErasedSegment.get_type] at hnl
    · simp only [List.cons_append, List.nil_append, List.cons.injEq] at he
      rw [← he.2.1] at hnl
      simp [(comment_type_facts c hc).2] at hnl
    · simp only [List.cons_append, List.cons.injEq] at he
      exact ih pre' s suf he.2.2 hnl

/-- C6: in the output of the trivia-reconstruction pass, every
when_clause/else_clause element is immediately preceded by exactly a
freshly created newline segment and a freshly created whitespace segment
carrying the indent string; and every newline segment of the output is
such a fresh one, immediately followed by that whitespace segment and a
clause or comment — so no input newline is carried over and consecutive
newlines are collapsed. -/
theorem st04_c6 (ind : String) (xs : Segments) :
    (∀ pre s suf, rebuild_spacing ind xs = pre ++ s :: suf → isClauseType s = true →
      ∃ pre₀, pre = pre₀ ++ [newlineSegment, whitespaceSegment ind]) ∧
    (∀ pre s suf, rebuild_spacing ind xs = pre ++ s :: suf → s.is_type ("newline") = true →
      s = newlineSegment ∧ ∃ t suf₀, suf = whitespaceSegment ind :: t :: suf₀ ∧
        (isClauseType t = true ∨ t.is_comment = true)) := by
  have h : SpacedOut ind (rebuild_spacing ind xs) := by
    unfold rebuild_spacing
    exact spacedOut_rebuildLoop ind xs _ _
  exact ⟨spacedOut_clause_pre h, spacedOut_newline_pre h⟩

theorem st04_c6_witness :
    (∃ pre₀, [newlineSegment, whitespaceSegment ("    ")] =
      pre₀ ++ [newlineSegment, whitespaceSegment ("    ")]) ∧
    (newlineSegment = newlineSegment ∧ ∃ t suf₀,
      [whitespaceSegment ("    "), wcOuter] = whitespaceSegment ("    ") :: t :: suf₀ ∧
      (isClauseType t = true ∨ t.is_comment = true)) :=
  ⟨(st04_c6 ("    ") [wcOuter]).1 [newlineSegment, whitespaceSegment ("    ")] wcOuter []
      (by decide) (by decide),
   (st04_c6 ("    ") [wcOuter]).2 [] newlineSegment [whitespaceSegment ("    "), wcOuter]
      (by decide) (by decide)⟩

theorem find?_index_spec (p : ErasedSegment → Bool) :
    ∀ (xs : List ErasedSegment) c, xs.find? p = some c →
      ∃ k : Nat, xs[k]? = some c ∧ p c = true ∧
        ∀ (j : Nat) t, j < k → xs[j]? = some t → p t = false := by
  intro xs
  induction xs with
  | nil => intro c h; cases h
  | cons x xs ih =>
    intro c h
    by_cases hx : p x = true
    · rw [List.find?_cons_of_pos _ hx] at h
      injection h with h
      subst h
      exact ⟨0, by simp, hx, fun j t hj _ => absurd hj (Nat.not_lt_zero j)⟩
    · rw [List.find?_cons_of_neg _ hx] at h
      obtain ⟨k, hk, hpc, hlt⟩ := ih c h
      refine ⟨k + 1, by simpa using hk, hpc, ?_⟩
      intro j t hj ht
      cases j with
      | zero =>
        simp only [List.getElem?_cons_zero, Option.some.injEq] at ht
        subst ht
        exact (Bool.not_eq_true _) ▸ hx
      | succ j =>
        simp only [List.getElem?_cons_succ] at ht
        exact hlt j t (by omega) ht

theorem find_last_index_spec (p : ErasedSegment → Bool) (xs : List ErasedSegment)
    (c : ErasedSegment) (h : (Segments.find_last xs p).head? = some c) :
    ∃ i : Nat, xs[i]? = some c ∧ p c = true ∧
      ∀ (j : Nat) t, i < j → xs[j]? = some t → p t = false := by
  have hf : xs.reverse.find? p = some c := by
    unfold Segments.find_last at h
    cases hr : xs.reverse.find? p with
    | none => rw [hr] at h; cases h
    | some s => rw [hr] at h; simp only [List.head?_cons, Option.some.injEq] at h; rw [← h]
  obtain ⟨k, hk, hpc, hrev⟩ := find?_index_spec p xs.reverse c hf
  have hklen : k < xs.reverse.length := by
    by_contra hge
    push_neg at hge
    rw [List.getElem?_eq_none hge] at hk
    cases hk
  rw [List.length_reverse] at hklen
  rw [List.getElem?_reverse hklen] at hk
  refine ⟨xs.length - 1 - k, hk, hpc, ?_⟩
  intro j t hij hjt
  have hjlen : j < xs.length := by
    by_contra hge
    push_neg at hge
    rw [List.getElem?_eq_none hge] at hjt
    cases hjt
  have hrevj : xs.reverse[xs.length - 1 - j]? = some t := by
    rw [List.getElem?_reverse (show xs.length - 1 - j < xs.length by omega)]
    have hjj : xs.length - 1 - (xs.length - 1 - j) = j := by omega
    rw [hjj]
    exact hjt
  exact hrev (xs.length - 1 - j) t (by omega) hrevj

theorem posOf_nodup : ∀ (xs : List ErasedSegment), xs.Nodup → ∀ (i : Nat) c,
    xs[i]? = some c → posOf xs c = some i := by
  intro xs
  induction xs with
  | nil => intro _ i c h; simp at h
  | cons x xs ih =>
    intro hnd i c h
    cases i with
    | zero =>
      simp only [List.getElem?_cons_zero, Option.some.injEq] at h
      subst h
      simp [posOf]
    | succ i =>
      simp only [List.getElem?_cons_succ] at h
      have hcx : ¬ x = c := by
        intro hxc
        subst hxc
        exact (List.nodup_cons.mp hnd).1 (List.getElem?_mem h)
      simp [posOf, hcx, ih (List.nodup_cons.mp hnd).2 i c h]

theorem select_stop_take (xs : Segments) (hnd : xs.Nodup) (k : Nat) :
    Segments.select xs none none none xs[k]? = xs.take k := by
  cases hk : xs[k]? with
  | none =>
    have hlen : xs.length ≤ k := by
      by_contra hl
      push_neg at hl
      rw [List.getElem?_eq_some.mpr ⟨hl, rfl⟩] at hk
      cases hk
    simp [Segments.select, List.take_of_length_le hlen]
  | some a =>
    have hpos := posOf_nodup xs hnd k a hk
    simp [Segments.select, hpos]

theorem restore_take (ctx : RuleContext) (lw e : ErasedSegment)
    (hnd : (case1_to_delete ctx lw e).Nodup) (c : ErasedSegment)
    (hc : (Segments.find_last (case1_to_delete ctx lw e)
        (fun s => s.is_comment)).head? = some c) :
    ∃ i : Nat, (case1_to_delete ctx lw e)[i]? = some c ∧ c.is_comment = true ∧
      (∀ (j : Nat) t, i < j → (case1_to_delete ctx lw e)[j]? = some t →
        t.is_comment = false) ∧
      case1_comments_to_restore ctx lw e = (case1_to_delete ctx lw e).take (i + 1) := by
  obtain ⟨i, hi, hpc, hafter⟩ := find_last_index_spec _ _ _ hc
  refine ⟨i, hi, hpc, hafter, ?_⟩
  have hidx : after_last_comment_index ctx lw e = i + 1 := by
    simp only [after_last_comment_index, hc, posOf_nodup _ hnd i c hi]
  unfold case1_comments_to_restore
  rw [hidx]
  exact select_stop_take _ hnd (i + 1)

theorem eval_some_inv (ctx : RuleContext) (r : LintResult)
    (k lw e : ErasedSegment) (cfg : FluffConfig) (ti : Int) (un : String)
    (h : eval ctx = some [r])
    (hk : (case1_keywords ctx).head? = some k)
    (hlw : (when_clause_list ctx).head? = some lw)
    (he : (case1_else_clause ctx).head? = some e)
    (hc : ctx.config = some cfg)
    (ht : ((cfg.raw.idx ("indentation")).idx ("tab_space_size")).as_int = some ti)
    (hu : ((cfg.raw.idx ("indentation")).idx ("indent_unit")).as_string = some un) :
    r = ⟨(case2 ctx).head?, evalFixes ctx lw e k (intAsUsize ti) un⟩ := by
  unfold eval at h
  repeat' split at h
  all_goals simp_all

/-- C4: when the flattening preconditions hold (eval produced its single
result) and the span strictly between the last outer when_clause and the
else_clause contains a comment, the fix list deletes every segment of that
span and the create_after payload anchored at the last when_clause starts
with exactly the span's segments up to and including its last comment,
ahead of all rebuilt inner-case content.  The Nodup hypothesis models
segment identity: in a real tree position markers make the span's
segments pairwise distinct. -/
theorem st04_c4 (ctx : RuleContext) (r : LintResult) (k lw e : ErasedSegment)
    (cfg : FluffConfig) (ti : Int) (un : String) (c : ErasedSegment)
    (h : eval ctx = some [r])
    (hk : (case1_keywords ctx).head? = some k)
    (hlw : (when_clause_list ctx).head? = some lw)
    (he : (case1_else_clause ctx).head? = some e)
    (hc : ctx.config = some cfg)
    (ht : ((cfg.raw.idx ("indentation")).idx ("tab_space_size")).as_int = some ti)
    (hu : ((cfg.raw.idx ("indentation")).idx ("indent_unit")).as_string = some un)
    (hcm : (Segments.find_last (case1_to_delete ctx lw e)
        (fun s => s.is_comment)).head? = some c)
    (hnd : (case1_to_delete ctx lw e).Nodup) :
    ∃ i : Nat, (case1_to_delete ctx lw e)[i]? = some c ∧ c.is_comment = true ∧
      (∀ (j : Nat) t, i < j → (case1_to_delete ctx lw e)[j]? = some t →
        t.is_comment = false) ∧
      r.fixes =
        (case1_to_delete ctx lw e).map LintFix.delete
          ++ [LintFix.create_after lw
                ((case1_to_delete ctx lw e).take (i + 1)
                  ++ rebuild_spacing
                       (indentation (case1_children ctx) lw (intAsUsize ti) un)
                       (after_else_comment ctx)
                  ++ rebuild_spacing
                       (indentation (case1_children ctx) lw (intAsUsize ti) un)
                       (nested_clauses ctx)),
              LintFix.delete e]
          ++ nested_end_trailing_comment (case1_children ctx) e
               (indentation (case1_children ctx) k (intAsUsize ti) un) := by
  obtain ⟨i, hi, hpc, hafter, hrest⟩ := restore_take ctx lw e hnd c hcm
  have hr := eval_some_inv ctx r k lw e cfg ti un h hk hlw he hc ht hu
  refine ⟨i, hi, hpc, hafter, ?_⟩
  rw [hr]
  simp only [evalFixes]
  rw [hrest]

theorem st04_c4_witness :
    ∃ i : Nat, (case1_to_delete posCtx wcOuter elsPos)[i]? = some cmtNote ∧
      cmtNote.is_comment = true ∧
      (∀ (j : Nat) t, i < j → (case1_to_delete posCtx wcOuter elsPos)[j]? = some t →
        t.is_comment = false) ∧
      posResult.fixes =
        (case1_to_delete posCtx wcOuter elsPos).map LintFix.delete
          ++ [LintFix.create_after wcOuter
                ((case1_to_delete posCtx wcOuter elsPos).take (i + 1)
                  ++ rebuild_spacing
                       (indentation (case1_children posCtx) wcOuter (intAsUsize 4) ("space"))
                       (after_else_comment posCtx)
                  ++ rebuild_spacing
                       (indentation (case1_children posCtx) wcOuter (intAsUsize 4) ("space"))
                       (nested_clauses posCtx)),
              LintFix.delete elsPos]
          ++ nested_end_trailing_comment (case1_children posCtx) elsPos
               (indentation (case1_children posCtx) kwCASE (intAsUsize 4) ("space")) :=
  st04_c4 posCtx posResult kwCASE wcOuter elsPos cfgGood 4 ("space") cmtNote
    (by decide) (by decide) (by decide) (by decide) rfl (by decide) (by decide)
    (by decide) (by decide)

theorem select_filter_loop (xs : Segments) (p q : ErasedSegment → Bool) :
    Segments.select xs (some p) (some q) none none = (xs.takeWhile q).filter p := rfl

theorem find_first_head (xs : Segments) (p : ErasedSegment → Bool) :
    (Segments.find_first xs p).head? = xs.find? p := by
  cases h : xs.find? p <;> simp [Segments.find_first, h]

/-- C8: the nested-END trailing-comment pass deletes exactly the
whitespace segments that precede the first comment on the line following
the else_clause (the segments after the else_clause up to the first
newline), and inserts a newline plus a whitespace segment carrying the
base indent string immediately before that first comment; when the line
carries no comment, only those whitespace deletions are emitted.  And
whenever eval produces its result, these fixes are appended at the end of
the fix list with the CASE-level indent string. -/
theorem st04_c8 :
    (∀ (children : Segments) (e : ErasedSegment) (ind : String),
      nested_end_trailing_comment children e ind =
        (((Segments.select children none (some fun s => !s.is_type ("newline"))
            (some e) none).takeWhile (fun s => !s.is_comment)).filter
            (fun s => s.is_whitespace)).map LintFix.delete
        ++ (match (Segments.select children none (some fun s => !s.is_type ("newline"))
              (some e) none).find? (fun s => s.is_comment) with
            | some c => [LintFix.create_before c [newlineSegment, whitespaceSegment ind]]
            | none => [])) ∧
    (∀ ctx r k lw e cfg ti un, eval ctx = some [r] →
      (case1_keywords ctx).head? = some k →
      (when_clause_list ctx).head? = some lw →
      (case1_else_clause ctx).head? = some e →
      ctx.config = some cfg →
      ((cfg.raw.idx ("indentation")).idx ("tab_space_size")).as_int = some ti →
      ((cfg.raw.idx ("indentation")).idx ("indent_unit")).as_string = some un →
      ∃ pre, r.fixes = pre ++ nested_end_trailing_comment (case1_children ctx) e
        (indentation (case1_children ctx) k (intAsUsize ti) un)) := by
  constructor
  · intro children e ind
    unfold nested_end_trailing_comment
    simp only [select_filter_loop, find_first_head]
    cases hf : (Segments.select children none (some fun s => !s.is_type ("newline"))
        (some e) none).find? (fun s => s.is_comment) with
    | none => simp [hf]
    | some c => simp [hf]
  · intro ctx r k lw e cfg ti un h hk hlw he hc ht hu
    have hr := eval_some_inv ctx r k lw e cfg ti un h hk hlw he hc ht hu
    refine ⟨(case1_to_delete ctx lw e).map LintFix.delete
      ++ [LintFix.create_after lw (case1_comments_to_restore ctx lw e
            ++ rebuild_spacing
                 (indentation (case1_children ctx) lw (intAsUsize ti) un)
                 (after_else_comment ctx)
            ++ rebuild_spacing
                 (indentation (case1_children ctx) lw (intAsUsize ti) un)
                 (nested_clauses ctx)),
          LintFix.delete e], ?_⟩
    rw [hr]
    simp only [evalFixes]

theorem st04_c8_witness :
    ∃ pre, posResult.fixes = pre
      ++ nested_end_trailing_comment (case1_children posCtx) elsPos
           (indentation (case1_children posCtx) kwCASE (intAsUsize 4) ("space")) :=
  st04_c8.2 posCtx posResult kwCASE wcOuter elsPos cfgGood 4 ("space")
    (by decide) (by decide) (by decide) (by decide) rfl (by decide) (by decide)

theorem st04_c5_witness :
    (∃ ws, (Segments.select (case1_children posCtx) none none none
        (some wcOuter)).reverse.find?
        (fun s => s.is_type ("whitespace")) = some ws ∧
      1 < ws.raw.length ∧
      indentation (case1_children posCtx) wcOuter 4 ("space") = ws.raw) ∨
    ((∀ ws, (Segments.select (case1_children posCtx) none none none
        (some wcOuter)).reverse.find?
        (fun s => s.is_type ("whitespace")) = some ws → ws.raw.length ≤ 1) ∧
     ∃ lvl, indentation (case1_children posCtx) wcOuter 4 ("space") =
        repeatStr (construct_single_indent ("space") 4) lvl ∧
       ((∃ v, (Segments.select (case1_children posCtx) none none none
            (some wcOuter)).reverse.find?
            (fun s => s.is_type ("indent")) = some (.indentMeta v) ∧ lvl = v + 1) ∨
        ((∀ v, (Segments.select (case1_children posCtx) none none none
            (some wcOuter)).reverse.find?
            (fun s => s.is_type ("indent")) ≠ some (.indentMeta v)) ∧ lvl = 1))) :=
  st04_c5 (case1_children posCtx) wcOuter 4 ("space")
